import Mathlib

/-!
A shallow embedding of the netpulse backend (src/backend/app.py) and proofs
about its network-graph state, query service and broadcast hub.

Modelling conventions:
- Python dicts (and the networkx DiGraph adjacency structure) are modelled as
  association lists in insertion order; `alookup` is dict lookup and `aupdate`
  is in-place update of the value stored at a key.
- `datetime.now()` is modelled by an explicit `now : Nat` argument; each
  captured event carries the time at which it is processed.
- `defaultdict(lambda: defaultdict(int))` is modelled by a total count that
  defaults to 0 (`statsCount`).  The defaultdict side effect of creating an
  empty inner dict on read is observationally invisible here: an empty inner
  map contributes nothing to any sum, to any lookup, and to the one failing
  expression in `get_hosts`, which fires only on a non-empty inner map.
- Fallible code (a Python expression that raises) returns `Except String`.
-/

/-! ## Association list primitives (Python dict model) -/

def alookup {α β : Type} [DecidableEq α] : List (α × β) → α → Option β
  | [], _ => none
  | kv :: rest, a => if kv.1 = a then some kv.2 else alookup rest a

def aupdate {α β : Type} [DecidableEq α] (f : β → β) : List (α × β) → α → List (α × β)
  | [], _ => []
  | kv :: rest, a => if kv.1 = a then (kv.1, f kv.2) :: rest else kv :: aupdate f rest a

/-! ## Data model (mirrors the node / edge attribute dicts of app.py) -/

/-- Attributes stored on a graph node by `process_packet`:
`type="host"`, `first_seen=datetime.now()` (app.py lines 128-132). -/
structure NodeData where
  type : String
  first_seen : Nat
deriving DecidableEq, Repr

/-- Attributes stored on a graph edge.  `process_packet` creates an edge with
`weight=1, first_seen=datetime.now()` and on repetition only does
`weight += 1` (app.py lines 134-140).  The code never writes a `last_seen`
key on the edge attribute dict, so `last_seen` is `Option Nat` with `none`
meaning the key is absent (the websocket init read defaults it). -/
structure EdgeData where
  weight : Nat
  first_seen : Nat
  last_seen : Option Nat
deriving DecidableEq, Repr

/-- The mutable network state (class NetworkState, app.py lines 96-103):
the DiGraph nodes and edges, and the nested packet_stats counters.
The websocket registry (`active_connections`) is modelled separately with
the broadcast hub. -/
structure NetworkState where
  nodes : List (String × NodeData)
  edges : List ((String × String) × EdgeData)
  packet_stats : List (String × List (String × Nat))
deriving DecidableEq, Repr

/-- NetworkState.__init__: empty graph, empty stats. -/
def initialState : NetworkState := ⟨[], [], []⟩

/-- The IP layer of a captured scapy packet (src, dst, proto). -/
structure IPLayer where
  src : String
  dst : String
  proto : Nat
deriving DecidableEq, Repr

/-- A captured scapy packet: `ip = none` models a packet with no IP layer
(`IP in packet` false); `size` models `len(packet)`. -/
structure Packet where
  ip : Option IPLayer
  size : Nat
deriving DecidableEq, Repr

/-- The PacketUpdate pydantic model returned by `process_packet`
(the `type="packet"` constant field is omitted). -/
structure PacketUpdate where
  source : String
  destination : String
  protocol : Nat
  timestamp : Nat
  size : Nat
deriving DecidableEq, Repr

/-- A decoded IP event: an IP packet together with the time at which the
single-writer worker processes it. -/
structure Ev where
  src : String
  dst : String
  proto : Nat
  size : Nat
  time : Nat
deriving DecidableEq, Repr

/-! ## NetworkAnalyzer.process_packet (app.py lines 112-151) -/

/-- Lines 128-132: `if not graph.has_node(ip): graph.add_node(ip, type="host",
first_seen=datetime.now())`.  networkx keeps nodes in insertion order. -/
def addHostIfAbsent (nodes : List (String × NodeData)) (ip : String) (now : Nat) :
    List (String × NodeData) :=
  if (alookup nodes ip).isSome then nodes else nodes ++ [(ip, ⟨"host", now⟩)]

/-- Lines 134-140: if the edge exists, `weight += 1`; otherwise
`add_edge(src, dst, weight=1, first_seen=datetime.now())`.  No `last_seen`
key is ever written. -/
def updateEdge (edges : List ((String × String) × EdgeData)) (src dst : String) (now : Nat) :
    List ((String × String) × EdgeData) :=
  if (alookup edges (src, dst)).isSome then
    aupdate (fun d => ⟨d.weight + 1, d.first_seen, d.last_seen⟩) edges (src, dst)
  else
    edges ++ [((src, dst), ⟨1, now, none⟩)]

/-- Inner step of `packet_stats[src_ip][dst_ip] += 1` on the inner
defaultdict: missing key starts from 0. -/
def bumpInner (inner : List (String × Nat)) (dst : String) : List (String × Nat) :=
  if (alookup inner dst).isSome then aupdate (fun n => n + 1) inner dst
  else inner ++ [(dst, 1)]

/-- Line 143: `self.state.packet_stats[src_ip][dst_ip] += 1` on the outer
defaultdict. -/
def bumpStats (stats : List (String × List (String × Nat))) (src dst : String) :
    List (String × List (String × Nat)) :=
  if (alookup stats src).isSome then aupdate (fun inner => bumpInner inner dst) stats src
  else stats ++ [(src, [(dst, 1)])]

/-- NetworkAnalyzer.process_packet (lines 112-151): on an IP packet, update
nodes (src first, then dst), the edge, and the stats counter, and return a
PacketUpdate; on a packet with no IP layer, return None and leave the state
untouched. -/
def process_packet (s : NetworkState) (p : Packet) (now : Nat) :
    NetworkState × Option PacketUpdate :=
  match p.ip with
  | none => (s, none)
  | some ipl =>
    let nodes1 := addHostIfAbsent (addHostIfAbsent s.nodes ipl.src now) ipl.dst now
    let edges1 := updateEdge s.edges ipl.src ipl.dst now
    let stats1 := bumpStats s.packet_stats ipl.src ipl.dst
    (⟨nodes1, edges1, stats1⟩, some ⟨ipl.src, ipl.dst, ipl.proto, now, p.size⟩)

/-- Processing one decoded IP event (the state effect of `process_packet`
on a packet that has an IP layer, at the event time). -/
def processEv (s : NetworkState) (e : Ev) : NetworkState :=
  (process_packet s ⟨some ⟨e.src, e.dst, e.proto⟩, e.size⟩ e.time).1

/-- The single-writer worker applying a sequence of events in arrival order. -/
def processAllFrom (s : NetworkState) (evs : List Ev) : NetworkState :=
  List.foldl processEv s evs

/-- Processing a sequence of events from a fresh NetworkState. -/
def processAll (evs : List Ev) : NetworkState := processAllFrom initialState evs

theorem processEv_def (s : NetworkState) (e : Ev) :
    processEv s e =
      ⟨addHostIfAbsent (addHostIfAbsent s.nodes e.src e.time) e.dst e.time,
       updateEdge s.edges e.src e.dst e.time,
       bumpStats s.packet_stats e.src e.dst⟩ := rfl

/-! ## State projections -/

/-- The set of host addresses in the graph (node identities, in insertion
order). -/
def nodeKeys (s : NetworkState) : List String := List.map Prod.fst s.nodes

/-- The set of flow identities (ordered pairs) in the graph. -/
def edgeKeys (s : NetworkState) : List (String × String) := List.map Prod.fst s.edges

/-- Each flow with its weight (the timestamp-free content of the edge set). -/
def edgeWeights (s : NetworkState) : List ((String × String) × Nat) :=
  List.map (fun p => (p.1, p.2.weight)) s.edges

/-- The per-pair counter `packet_stats[src][dst]`, 0 when either defaultdict
level has no entry. -/
def statsCount (stats : List (String × List (String × Nat))) (src dst : String) : Nat :=
  Option.getD (alookup (Option.getD (alookup stats src) []) dst) 0

/-- The weight of the flow (src, dst), 0 when no such edge exists. -/
def edgeWeight (edges : List ((String × String) × EdgeData)) (src dst : String) : Nat :=
  Option.getD (Option.map EdgeData.weight (alookup edges (src, dst))) 0

/-- The timestamp-free core of an event (source, destination, protocol,
size): everything except the processing time. -/
def Ev.core (e : Ev) : String × String × Nat × Nat := (e.src, e.dst, e.proto, e.size)

/-! ## Query service: GET /network/hosts (app.py lines 331-351) -/

/-- Line 339: `packets_sent=sum(packet_stats[node].values())`. -/
def packetsSent (stats : List (String × List (String × Nat))) (node : String) : Nat :=
  (List.map Prod.snd (Option.getD (alookup stats node) [])).sum

/-- Lines 340-344: the packets_received generator
`sum(stats[node] for host_stats in packet_stats.values()
     for dest, stats in host_stats.items())`.
The loop variable `stats` is the inner dict VALUE, an int, so evaluating
`stats[node]` on the first item of the first non-empty inner dict raises
TypeError; only when every inner dict is empty does the sum evaluate (to 0). -/
def sumReceived : List (String × List (String × Nat)) → String → Except String Nat
  | [], _ => Except.ok 0
  | (_, inner) :: rest, node =>
    match inner with
    | [] => sumReceived rest node
    | _ :: _ => Except.error "TypeError: int is not subscriptable"

/-- Line 338: `list(graph.neighbors(node))`.  On a networkx DiGraph,
`neighbors` iterates the adjacency dict of `node`, i.e. its successors, each
exactly once (edge keys are unique in every reachable state, see
edgeKeys_nodup below). -/
def neighborsOf (s : NetworkState) (node : String) : List String :=
  List.map (fun p => p.1.2) (List.filter (fun p => decide (p.1.1 = node)) s.edges)

/-- Line 338: `connections=len(list(graph.neighbors(node)))`. -/
def hostConnections (s : NetworkState) (node : String) : Nat :=
  (neighborsOf s node).length

/-- Modelled from the claim wording, for comparison with the code: the graph
degree of a host, the number of flow records it participates in, counting
both incoming and outgoing flows. -/
def graphDegreeClaimed (s : NetworkState) (node : String) : Nat :=
  (List.filter (fun p => decide (p.1.1 = node) || decide (p.1.2 = node)) s.edges).length

/-- The HostStats pydantic model (app.py lines 77-87). -/
structure HostStats where
  ip : String
  connections : Nat
  packets_sent : Nat
  packets_received : Nat
  first_seen : Nat
deriving DecidableEq, Repr

/-- One entry of the host list (app.py lines 336-348); `now` is the
`datetime.now()` default used when the node has no first_seen attribute. -/
def hostStatsOf (s : NetworkState) (node : String) (now : Nat) : Except String HostStats :=
  match sumReceived s.packet_stats node with
  | Except.error e => Except.error e
  | Except.ok r =>
    Except.ok
      ⟨node, hostConnections s node, packetsSent s.packet_stats node, r,
       Option.getD (Option.map NodeData.first_seen (alookup s.nodes node)) now⟩

/-- The `for node in graph.nodes()` comprehension: the first entry whose
computation raises aborts the whole query. -/
def hostListAux (s : NetworkState) (now : Nat) :
    List (String × NodeData) → Except String (List HostStats)
  | [] => Except.ok []
  | kv :: rest =>
    match hostStatsOf s kv.1 now with
    | Except.error e => Except.error e
    | Except.ok h =>
      match hostListAux s now rest with
      | Except.error e => Except.error e
      | Except.ok hs => Except.ok (h :: hs)

/-- GET /network/hosts (app.py lines 331-351). -/
def get_hosts (s : NetworkState) (now : Nat) : Except String (List HostStats) :=
  hostListAux s now s.nodes

/-! ## Broadcast hub: broadcast_update (app.py lines 154-180)

A websocket connection is identified by `cid`; `fails` says whether
`connection.send_json` raises for this delta.  `broadcast_update` iterates a
copy of the registry; on a send failure it removes exactly that connection
from the live registry (`if connection in active_connections: remove`) and
continues with the rest. -/

structure Conn where
  cid : Nat
  fails : Bool
deriving DecidableEq, Repr

/-- The `for connection in active_connections.copy()` loop: `reg` is the live
registry, `delivered` accumulates the connections whose send succeeded, the
third argument is the remainder of the copy being iterated. -/
def broadcastAux : List Conn → List Conn → List Conn → List Conn × List Conn
  | reg, delivered, [] => (reg, delivered)
  | reg, delivered, c :: rest =>
    if c.fails then
      broadcastAux
        (if c ∈ reg then List.filter (fun x => decide (¬ x = c)) reg else reg)
        delivered rest
    else
      broadcastAux reg (delivered ++ [c]) rest

/-- broadcast_update: returns the registry after the call and the list of
connections that received the delta.  (The `if state.active_connections`
guard and the data field conversions do not affect either.) -/
def broadcast_update (reg : List Conn) : List Conn × List Conn :=
  broadcastAux reg [] reg

/-! ## Broadcast hub: snapshot-then-delta (websocket_endpoint, app.py 262-317)

In the source, the state mutation in `process_packet` and the registry copy
taken at the top of the `broadcast_update` loop run with no intervening
`await` (process_packet has no suspension point, and the copy is taken before
the first `send_json`), so mutation and capture of the recipient set form one
atomic step of the event loop.  Likewise `active_connections.add(websocket)`
and building the init snapshot from the graph (lines 271-294) are one
synchronous block.  The hub model below therefore has two atomic operations:
`mutate e` (apply the event and record the delta for every currently
registered subscriber) and `subscribe` (register a subscriber whose snapshot
is the current graph). -/

structure Subscriber where
  snapNodes : List (String × NodeData)
  snapEdges : List ((String × String) × EdgeData)
  received : List Ev
deriving DecidableEq, Repr

structure Hub where
  gstate : NetworkState
  subs : List Subscriber
deriving DecidableEq, Repr

inductive HOp where
  | mutate (e : Ev)
  | subscribe
deriving DecidableEq, Repr

def hstep (h : Hub) : HOp → Hub
  | HOp.mutate e =>
    ⟨processEv h.gstate e,
     List.map (fun s => ⟨s.snapNodes, s.snapEdges, s.received ++ [e]⟩) h.subs⟩
  | HOp.subscribe => ⟨h.gstate, h.subs ++ [⟨h.gstate.nodes, h.gstate.edges, []⟩]⟩

def hrun (h : Hub) (ops : List HOp) : Hub := List.foldl hstep h ops

/-- The hub at process start: fresh state and one subscriber connected from
the very start (its init snapshot is the empty graph). -/
def hub0 : Hub := ⟨initialState, [⟨[], [], []⟩]⟩

/-- Folding one `packet` delta message into a subscriber-side graph: create
the hosts if absent, then create the flow with weight 1 or increment its
weight — the same graph update the backend applies. -/
def applyDelta (g : List (String × NodeData) × List ((String × String) × EdgeData))
    (e : Ev) : List (String × NodeData) × List ((String × String) × EdgeData) :=
  (addHostIfAbsent (addHostIfAbsent g.1 e.src e.time) e.dst e.time,
   updateEdge g.2 e.src e.dst e.time)

/-- The graph a subscriber reconstructs: its init snapshot plus every delta
it received, in order. -/
def reconstruct (s : Subscriber) :
    List (String × NodeData) × List ((String × String) × EdgeData) :=
  List.foldl applyDelta (s.snapNodes, s.snapEdges) s.received

/-! ## Association list lemmas -/

theorem alookup_append {α β : Type} [DecidableEq α] (l1 l2 : List (α × β)) (a : α) :
    alookup (l1 ++ l2) a =
      match alookup l1 a with
      | some v => some v
      | none => alookup l2 a := by
  induction l1 with
  | nil => rfl
  | cons kv rest ih =>
    by_cases h : kv.1 = a <;> simp [alookup, h, ih]

theorem alookup_isSome_iff {α β : Type} [DecidableEq α] (l : List (α × β)) (a : α) :
    (alookup l a).isSome ↔ a ∈ List.map Prod.fst l := by
  induction l with
  | nil => simp [alookup]
  | cons kv rest ih =>
    by_cases h : kv.1 = a
    · simp [alookup, h, ih, eq_comm]
    · simp only [alookup, h, if_false, ih, List.map_cons, List.mem_cons]
      constructor
      · exact fun hm => Or.inr hm
      · rintro (hh | hm)
        · exact (h hh.symm).elim
        · exact hm

theorem map_fst_aupdate {α β : Type} [DecidableEq α] (f : β → β) (l : List (α × β)) (a : α) :
    List.map Prod.fst (aupdate f l a) = List.map Prod.fst l := by
  induction l with
  | nil => rfl
  | cons kv rest ih =>
    by_cases h : kv.1 = a <;> simp [aupdate, h, ih]

theorem alookup_aupdate_self {α β : Type} [DecidableEq α] (f : β → β) (l : List (α × β))
    (a : α) : alookup (aupdate f l a) a = Option.map f (alookup l a) := by
  induction l with
  | nil => rfl
  | cons kv rest ih =>
    by_cases h : kv.1 = a <;> simp [aupdate, alookup, h, ih]

theorem alookup_aupdate_ne {α β : Type} [DecidableEq α] (f : β → β) (l : List (α × β))
    (a b : α) (hne : b ≠ a) : alookup (aupdate f l a) b = alookup l b := by
  induction l with
  | nil => rfl
  | cons kv rest ih =>
    by_cases h : kv.1 = a
    · have h2 : ¬ kv.1 = b := by rw [h]; exact fun hh => hne hh.symm
      simp [aupdate, alookup, h, h2, Ne.symm hne]
    · by_cases h3 : kv.1 = b <;> simp [aupdate, alookup, h, h3, ih, hne]

theorem alookup_map_snd {α β γ : Type} [DecidableEq α] (g : β → γ) (l : List (α × β))
    (a : α) :
    alookup (List.map (fun p => (p.1, g p.2)) l) a = Option.map g (alookup l a) := by
  induction l with
  | nil => rfl
  | cons kv rest ih =>
    by_cases h : kv.1 = a <;> simp [alookup, h, ih]

theorem map_snd_aupdate {α β γ : Type} [DecidableEq α] (g : β → γ) (f : β → β) (f2 : γ → γ)
    (hc : ∀ b, g (f b) = f2 (g b)) (l : List (α × β)) (a : α) :
    List.map (fun p => (p.1, g p.2)) (aupdate f l a) =
      aupdate f2 (List.map (fun p => (p.1, g p.2)) l) a := by
  induction l with
  | nil => rfl
  | cons kv rest ih =>
    by_cases h : kv.1 = a <;> simp [aupdate, h, ih, hc]

theorem nodup_append_singleton {α : Type} (l : List α) (a : α) (ha : a ∉ l)
    (hl : l.Nodup) : (l ++ [a]).Nodup := by
  simp [List.nodup_append, hl, ha]

/-! ## Step lemmas: node keys -/

/-- The effect of `addHostIfAbsent` on the key list alone. -/
def nkStep (ks : List String) (ip : String) : List String :=
  if ip ∈ ks then ks else ks ++ [ip]

theorem nodeKeys_addHost (nodes : List (String × NodeData)) (ip : String) (now : Nat) :
    List.map Prod.fst (addHostIfAbsent nodes ip now) = nkStep (List.map Prod.fst nodes) ip := by
  unfold addHostIfAbsent nkStep
  by_cases h : ip ∈ List.map Prod.fst nodes
  · simp [(alookup_isSome_iff nodes ip).mpr h, h]
  · have h2 : ¬ (alookup nodes ip).isSome = true :=
      fun hs => h ((alookup_isSome_iff nodes ip).mp hs)
    simp [h2, h]

theorem mem_nkStep (ks : List String) (ip a : String) :
    a ∈ nkStep ks ip ↔ a ∈ ks ∨ a = ip := by
  unfold nkStep
  by_cases h : ip ∈ ks
  · simp only [h, if_true]
    exact ⟨fun hm => Or.inl hm, fun hm => hm.elim id (fun he => he ▸ h)⟩
  · simp [h]

theorem nodup_nkStep (ks : List String) (ip : String) (h : ks.Nodup) :
    (nkStep ks ip).Nodup := by
  unfold nkStep
  by_cases hm : ip ∈ ks
  · simpa [hm] using h
  · simpa [hm] using nodup_append_singleton ks ip hm h

theorem nodeKeys_processEv (s : NetworkState) (e : Ev) :
    nodeKeys (processEv s e) = nkStep (nkStep (nodeKeys s) e.src) e.dst := by
  rw [processEv_def]
  show List.map Prod.fst (addHostIfAbsent (addHostIfAbsent s.nodes e.src e.time) e.dst e.time)
      = _
  rw [nodeKeys_addHost, nodeKeys_addHost]
  rfl

theorem mem_nodeKeys_processEv (s : NetworkState) (e : Ev) (a : String) :
    a ∈ nodeKeys (processEv s e) ↔ a ∈ nodeKeys s ∨ a = e.src ∨ a = e.dst := by
  rw [nodeKeys_processEv, mem_nkStep, mem_nkStep, or_assoc]

theorem nodup_nodeKeys_processEv (s : NetworkState) (e : Ev)
    (h : (nodeKeys s).Nodup) : (nodeKeys (processEv s e)).Nodup := by
  rw [nodeKeys_processEv]
  exact nodup_nkStep _ _ (nodup_nkStep _ _ h)

/-! ## Step lemmas: edge weights and edge keys -/

/-- The effect of `updateEdge` on the (key, weight) view of the edge list. -/
def ewStep (ews : List ((String × String) × Nat)) (k : String × String) :
    List ((String × String) × Nat) :=
  if (alookup ews k).isSome then aupdate (fun n => n + 1) ews k else ews ++ [(k, 1)]

theorem edgeWeights_updateEdge (edges : List ((String × String) × EdgeData))
    (src dst : String) (now : Nat) :
    List.map (fun p => (p.1, p.2.weight)) (updateEdge edges src dst now) =
      ewStep (List.map (fun p => (p.1, p.2.weight)) edges) (src, dst) := by
  unfold updateEdge ewStep
  have hiso : (alookup (List.map (fun p => (p.1, p.2.weight)) edges) (src, dst)).isSome
      = (alookup edges (src, dst)).isSome := by
    rw [alookup_map_snd]
    cases alookup edges (src, dst) <;> rfl
  by_cases h : (alookup edges (src, dst)).isSome
  · rw [if_pos h, if_pos (by rw [hiso]; exact h)]
    exact map_snd_aupdate EdgeData.weight _ _ (fun d => rfl) edges (src, dst)
  · rw [if_neg h, if_neg (by rw [hiso]; exact h)]
    simp

theorem edgeWeights_processEv (s : NetworkState) (e : Ev) :
    edgeWeights (processEv s e) = ewStep (edgeWeights s) (e.src, e.dst) := by
  rw [processEv_def]
  show List.map (fun p => (p.1, p.2.weight)) (updateEdge s.edges e.src e.dst e.time) = _
  rw [edgeWeights_updateEdge]
  rfl

theorem edgeKeys_eq_map (s : NetworkState) :
    edgeKeys s = List.map Prod.fst (edgeWeights s) := by
  unfold edgeKeys edgeWeights
  rw [List.map_map]
  rfl

theorem mem_keys_ewStep (ews : List ((String × String) × Nat)) (k p : String × String) :
    p ∈ List.map Prod.fst (ewStep ews k) ↔ p ∈ List.map Prod.fst ews ∨ p = k := by
  unfold ewStep
  by_cases h : (alookup ews k).isSome
  · rw [if_pos h, map_fst_aupdate]
    have hk : k ∈ List.map Prod.fst ews := (alookup_isSome_iff ews k).mp h
    exact ⟨fun hm => Or.inl hm, fun hm => hm.elim id (fun he => he ▸ hk)⟩
  · rw [if_neg h]
    simp

theorem nodup_keys_ewStep (ews : List ((String × String) × Nat)) (k : String × String)
    (h : (List.map Prod.fst ews).Nodup) : (List.map Prod.fst (ewStep ews k)).Nodup := by
  unfold ewStep
  by_cases hm : (alookup ews k).isSome
  · rw [if_pos hm, map_fst_aupdate]
    exact h
  · rw [if_neg hm]
    have hk : k ∉ List.map Prod.fst ews := fun hmem =>
      hm ((alookup_isSome_iff ews k).mpr hmem)
    simpa using nodup_append_singleton _ k hk h

theorem mem_edgeKeys_processEv (s : NetworkState) (e : Ev) (p : String × String) :
    p ∈ edgeKeys (processEv s e) ↔ p ∈ edgeKeys s ∨ p = (e.src, e.dst) := by
  rw [edgeKeys_eq_map, edgeKeys_eq_map, edgeWeights_processEv, mem_keys_ewStep]

theorem nodup_edgeKeys_processEv (s : NetworkState) (e : Ev)
    (h : (edgeKeys s).Nodup) : (edgeKeys (processEv s e)).Nodup := by
  rw [edgeKeys_eq_map, edgeWeights_processEv]
  exact nodup_keys_ewStep _ _ (by rw [edgeKeys_eq_map] at h; exact h)

/-! ## Step lemmas: counters -/

theorem alookup_append_none {α β : Type} [DecidableEq α] (l1 l2 : List (α × β)) (a : α)
    (h : alookup l1 a = none) : alookup (l1 ++ l2) a = alookup l2 a := by
  rw [alookup_append, h]

theorem alookup_append_some {α β : Type} [DecidableEq α] (l1 l2 : List (α × β)) (a : α)
    (v : β) (h : alookup l1 a = some v) : alookup (l1 ++ l2) a = some v := by
  rw [alookup_append, h]

theorem bumpInner_self (inner : List (String × Nat)) (dst : String) :
    Option.getD (alookup (bumpInner inner dst) dst) 0 =
      Option.getD (alookup inner dst) 0 + 1 := by
  unfold bumpInner
  by_cases h : (alookup inner dst).isSome
  · obtain ⟨n, hn⟩ := Option.isSome_iff_exists.mp h
    rw [if_pos h, alookup_aupdate_self, hn]
    rfl
  · have hn : alookup inner dst = none := Option.not_isSome_iff_eq_none.mp h
    rw [if_neg h, alookup_append_none _ _ _ hn, hn]
    simp [alookup]

theorem bumpInner_ne (inner : List (String × Nat)) (dst b : String) (hne : b ≠ dst) :
    alookup (bumpInner inner dst) b = alookup inner b := by
  unfold bumpInner
  by_cases h : (alookup inner dst).isSome
  · rw [if_pos h, alookup_aupdate_ne _ _ _ _ hne]
  · rw [if_neg h]
    cases hb : alookup inner b with
    | none =>
      rw [alookup_append_none _ _ _ hb]
      simp [alookup, Ne.symm hne]
    | some v => rw [alookup_append_some _ _ _ _ hb]

theorem statsCount_bumpStats_self (st : List (String × List (String × Nat)))
    (src dst : String) :
    statsCount (bumpStats st src dst) src dst = statsCount st src dst + 1 := by
  unfold bumpStats statsCount
  by_cases h : (alookup st src).isSome
  · obtain ⟨inner, hi⟩ := Option.isSome_iff_exists.mp h
    rw [if_pos h, alookup_aupdate_self, hi]
    simpa using bumpInner_self inner dst
  · have hn : alookup st src = none := Option.not_isSome_iff_eq_none.mp h
    rw [if_neg h, alookup_append_none _ _ _ hn, hn]
    simp [alookup]

theorem statsCount_bumpStats_ne (st : List (String × List (String × Nat)))
    (src dst a b : String) (hne : ¬ (a = src ∧ b = dst)) :
    statsCount (bumpStats st src dst) a b = statsCount st a b := by
  unfold bumpStats statsCount
  by_cases ha : a = src
  · subst ha
    have hb : b ≠ dst := fun hbd => hne ⟨rfl, hbd⟩
    by_cases h : (alookup st a).isSome
    · obtain ⟨inner, hi⟩ := Option.isSome_iff_exists.mp h
      rw [if_pos h, alookup_aupdate_self, hi]
      simp only [Option.map_some', Option.getD_some]
      rw [bumpInner_ne inner dst b hb]
    · have hn : alookup st a = none := Option.not_isSome_iff_eq_none.mp h
      rw [if_neg h, alookup_append_none _ _ _ hn, hn]
      simp [alookup, Ne.symm hb]
  · by_cases h : (alookup st src).isSome
    · rw [if_pos h, alookup_aupdate_ne _ _ _ _ ha]
    · rw [if_neg h]
      cases hb2 : alookup st a with
      | none =>
        rw [alookup_append_none _ _ _ hb2]
        simp [alookup, Ne.symm ha]
      | some v => rw [alookup_append_some _ _ _ _ hb2]

theorem edgeWeight_updateEdge_self (edges : List ((String × String) × EdgeData))
    (src dst : String) (now : Nat) :
    edgeWeight (updateEdge edges src dst now) src dst = edgeWeight edges src dst + 1 := by
  unfold updateEdge edgeWeight
  by_cases h : (alookup edges (src, dst)).isSome
  · obtain ⟨d, hd⟩ := Option.isSome_iff_exists.mp h
    rw [if_pos h, alookup_aupdate_self, hd]
    rfl
  · have hn : alookup edges (src, dst) = none := Option.not_isSome_iff_eq_none.mp h
    rw [if_neg h, alookup_append_none _ _ _ hn, hn]
    simp [alookup]

theorem edgeWeight_updateEdge_ne (edges : List ((String × String) × EdgeData))
    (src dst : String) (now : Nat) (a b : String) (hne : (a, b) ≠ (src, dst)) :
    edgeWeight (updateEdge edges src dst now) a b = edgeWeight edges a b := by
  unfold updateEdge edgeWeight
  by_cases h : (alookup edges (src, dst)).isSome
  · rw [if_pos h, alookup_aupdate_ne _ _ _ _ hne]
  · rw [if_neg h]
    cases hb : alookup edges (a, b) with
    | none =>
      rw [alookup_append_none _ _ _ hb]
      simp [alookup, Ne.symm hne]
    | some v => rw [alookup_append_some _ _ _ _ hb]

/-! ## processEv corollaries for the counters -/

theorem statsCount_processEv_self (s : NetworkState) (e : Ev) :
    statsCount (processEv s e).packet_stats e.src e.dst
      = statsCount s.packet_stats e.src e.dst + 1 := by
  rw [processEv_def]
  exact statsCount_bumpStats_self s.packet_stats e.src e.dst

theorem statsCount_processEv_ne (s : NetworkState) (e : Ev) (a b : String)
    (hne : ¬ (a = e.src ∧ b = e.dst)) :
    statsCount (processEv s e).packet_stats a b = statsCount s.packet_stats a b := by
  rw [processEv_def]
  exact statsCount_bumpStats_ne s.packet_stats e.src e.dst a b hne

theorem edgeWeight_processEv_self (s : NetworkState) (e : Ev) :
    edgeWeight (processEv s e).edges e.src e.dst = edgeWeight s.edges e.src e.dst + 1 := by
  rw [processEv_def]
  exact edgeWeight_updateEdge_self s.edges e.src e.dst e.time

theorem edgeWeight_processEv_ne (s : NetworkState) (e : Ev) (a b : String)
    (hne : (a, b) ≠ (e.src, e.dst)) :
    edgeWeight (processEv s e).edges a b = edgeWeight s.edges a b := by
  rw [processEv_def]
  exact edgeWeight_updateEdge_ne s.edges e.src e.dst e.time a b hne

/-! ## The counter invariant (stats equals edge weight) -/

theorem stats_eq_weight_processEv (s : NetworkState) (e : Ev)
    (h : ∀ a b, statsCount s.packet_stats a b = edgeWeight s.edges a b) (a b : String) :
    statsCount (processEv s e).packet_stats a b = edgeWeight (processEv s e).edges a b := by
  by_cases hab : a = e.src ∧ b = e.dst
  · obtain ⟨ha, hb⟩ := hab
    subst ha
    subst hb
    rw [statsCount_processEv_self, edgeWeight_processEv_self, h]
  · have hne : (a, b) ≠ (e.src, e.dst) := by
      intro hp
      exact hab ⟨congrArg Prod.fst hp, congrArg Prod.snd hp⟩
    rw [statsCount_processEv_ne s e a b hab, edgeWeight_processEv_ne s e a b hne, h]

theorem stats_eq_weight_processAllFrom (evs : List Ev) (s : NetworkState)
    (h : ∀ a b, statsCount s.packet_stats a b = edgeWeight s.edges a b) :
    ∀ a b, statsCount (processAllFrom s evs).packet_stats a b
      = edgeWeight (processAllFrom s evs).edges a b := by
  induction evs generalizing s with
  | nil => exact h
  | cons e rest ih => exact ih (processEv s e) (stats_eq_weight_processEv s e h)

/-! ## Membership and uniqueness over a whole run -/

theorem mem_nodeKeys_processAllFrom (evs : List Ev) (s : NetworkState) (a : String) :
    a ∈ nodeKeys (processAllFrom s evs)
      ↔ a ∈ nodeKeys s ∨ ∃ e, e ∈ evs ∧ (a = e.src ∨ a = e.dst) := by
  induction evs generalizing s with
  | nil => simp [processAllFrom]
  | cons e rest ih =>
    show a ∈ nodeKeys (processAllFrom (processEv s e) rest) ↔ _
    rw [ih, mem_nodeKeys_processEv]
    simp only [List.mem_cons, exists_eq_or_imp]
    aesop

theorem mem_edgeKeys_processAllFrom (evs : List Ev) (s : NetworkState) (p : String × String) :
    p ∈ edgeKeys (processAllFrom s evs)
      ↔ p ∈ edgeKeys s ∨ ∃ e, e ∈ evs ∧ p = (e.src, e.dst) := by
  induction evs generalizing s with
  | nil => simp [processAllFrom]
  | cons e rest ih =>
    show p ∈ edgeKeys (processAllFrom (processEv s e) rest) ↔ _
    rw [ih, mem_edgeKeys_processEv]
    simp only [List.mem_cons, exists_eq_or_imp]
    aesop

theorem nodup_keys_processAllFrom (evs : List Ev) (s : NetworkState)
    (hn : (nodeKeys s).Nodup) (he : (edgeKeys s).Nodup) :
    (nodeKeys (processAllFrom s evs)).Nodup ∧ (edgeKeys (processAllFrom s evs)).Nodup := by
  induction evs generalizing s with
  | nil => exact ⟨hn, he⟩
  | cons e rest ih =>
    exact ih (processEv s e) (nodup_nodeKeys_processEv s e hn)
      (nodup_edgeKeys_processEv s e he)

theorem processAllFrom_append (s : NetworkState) (l1 l2 : List Ev) :
    processAllFrom s (l1 ++ l2) = processAllFrom (processAllFrom s l1) l2 := by
  unfold processAllFrom
  rw [List.foldl_append]

/-! ## Timestamp-erased determinism of a run -/

theorem erased_run (evs1 : List Ev) :
    ∀ (evs2 : List Ev) (s1 s2 : NetworkState),
      List.map Ev.core evs1 = List.map Ev.core evs2 →
      nodeKeys s1 = nodeKeys s2 →
      edgeWeights s1 = edgeWeights s2 →
      s1.packet_stats = s2.packet_stats →
      nodeKeys (processAllFrom s1 evs1) = nodeKeys (processAllFrom s2 evs2) ∧
      edgeWeights (processAllFrom s1 evs1) = edgeWeights (processAllFrom s2 evs2) ∧
      (processAllFrom s1 evs1).packet_stats = (processAllFrom s2 evs2).packet_stats := by
  induction evs1 with
  | nil =>
    intro evs2 s1 s2 hc hn he hs
    cases evs2 with
    | nil => exact ⟨hn, he, hs⟩
    | cons e2 rest2 => simp at hc
  | cons e1 rest1 ih =>
    intro evs2 s1 s2 hc hn he hs
    cases evs2 with
    | nil => simp at hc
    | cons e2 rest2 =>
      simp only [List.map_cons, List.cons.injEq] at hc
      obtain ⟨hcore, hrest⟩ := hc
      have hsrc : e1.src = e2.src := congrArg (fun q => q.1) hcore
      have hdst : e1.dst = e2.dst := congrArg (fun q => q.2.1) hcore
      refine ih rest2 (processEv s1 e1) (processEv s2 e2) hrest ?_ ?_ ?_
      · rw [nodeKeys_processEv, nodeKeys_processEv, hn, hsrc, hdst]
      · rw [edgeWeights_processEv, edgeWeights_processEv, he, hsrc, hdst]
      · show bumpStats s1.packet_stats e1.src e1.dst = bumpStats s2.packet_stats e2.src e2.dst
        rw [hs, hsrc, hdst]

/-! ## Broadcast hub invariant -/

theorem hub_reconstruct (ops : List HOp) :
    ∀ h : Hub,
      (∀ s, s ∈ h.subs → reconstruct s = (h.gstate.nodes, h.gstate.edges)) →
      ∀ s, s ∈ (hrun h ops).subs →
        reconstruct s = ((hrun h ops).gstate.nodes, (hrun h ops).gstate.edges) := by
  induction ops with
  | nil => exact fun h hi s hs => hi s hs
  | cons op rest ih =>
    intro h hi
    refine ih (hstep h op) ?_
    intro s hs
    cases op with
    | mutate e =>
      simp only [hstep] at hs ⊢
      obtain ⟨s0, hs0, rfl⟩ := List.mem_map.mp hs
      show List.foldl applyDelta (s0.snapNodes, s0.snapEdges) (s0.received ++ [e]) = _
      rw [List.foldl_append]
      have hrec := hi s0 hs0
      unfold reconstruct at hrec
      rw [hrec]
      rfl
    | subscribe =>
      simp only [hstep] at hs ⊢
      rcases List.mem_append.mp hs with hmem | hnew
      · exact hi s hmem
      · have hseq : s = ⟨h.gstate.nodes, h.gstate.edges, []⟩ := by
          simpa using hnew
        subst hseq
        rfl

/-! ## Broadcast failure handling -/

/-- A connection survives the iteration over `todo` when it is not a failing
member of `todo`. -/
def keepAfter (todo : List Conn) (x : Conn) : Bool :=
  !(decide (x ∈ todo) && x.fails)

theorem broadcastAux_delivered (todo : List Conn) :
    ∀ reg delivered, (broadcastAux reg delivered todo).2
      = delivered ++ List.filter (fun c => !c.fails) todo := by
  induction todo with
  | nil =>
    intro reg delivered
    simp [broadcastAux]
  | cons c rest ih =>
    intro reg delivered
    by_cases h : c.fails
    · simp [broadcastAux, h, ih]
    · simp [broadcastAux, h, ih]

theorem broadcastAux_registry (todo : List Conn) :
    ∀ reg delivered, (broadcastAux reg delivered todo).1
      = List.filter (keepAfter todo) reg := by
  induction todo with
  | nil =>
    intro reg delivered
    show reg = _
    symm
    refine List.filter_eq_self.mpr ?_
    intro a _
    simp [keepAfter]
  | cons c rest ih =>
    intro reg delivered
    by_cases h : c.fails
    · simp only [broadcastAux, h, if_true]
      rw [ih]
      have hreg : (if c ∈ reg then List.filter (fun x => decide (¬ x = c)) reg else reg)
          = List.filter (fun x => decide (¬ x = c)) reg := by
        by_cases hm : c ∈ reg
        · rw [if_pos hm]
        · rw [if_neg hm]
          symm
          refine List.filter_eq_self.mpr ?_
          intro a ha
          simp only [decide_eq_true_eq]
          exact fun he => hm (he ▸ ha)
      rw [hreg, List.filter_filter]
      refine List.filter_congr ?_
      intro x _
      by_cases hxc : x = c
      · subst hxc
        simp [keepAfter, h]
      · simp [keepAfter, hxc]
    · simp only [broadcastAux, h, Bool.false_eq_true, if_false]
      rw [ih]
      refine List.filter_congr ?_
      intro x _
      by_cases hxc : x = c
      · subst hxc
        simp [keepAfter, h]
      · simp [keepAfter, hxc]

theorem broadcast_update_spec (reg : List Conn) :
    (broadcast_update reg).1 = List.filter (fun c => !c.fails) reg ∧
    (broadcast_update reg).2 = List.filter (fun c => !c.fails) reg := by
  constructor
  · rw [broadcast_update, broadcastAux_registry]
    refine List.filter_congr ?_
    intro x hx
    simp [keepAfter, hx]
  · rw [broadcast_update, broadcastAux_delivered]
    simp

/-! ## Neighbors (DiGraph successors) -/

theorem neighborsOf_eq_keys (s : NetworkState) (node : String) :
    neighborsOf s node
      = List.map Prod.snd (List.filter (fun k => decide (k.1 = node)) (edgeKeys s)) := by
  unfold neighborsOf edgeKeys
  induction s.edges with
  | nil => rfl
  | cons p rest ih =>
    by_cases h : p.1.1 = node
    · have hd : decide (p.1.1 = node) = true := decide_eq_true h
      simp [List.filter_cons, hd, ih]
    · have hd : decide (p.1.1 = node) = false := decide_eq_false h
      simp [List.filter_cons, hd, ih]

theorem mem_neighborsOf (s : NetworkState) (node d : String) :
    d ∈ neighborsOf s node ↔ (node, d) ∈ edgeKeys s := by
  rw [neighborsOf_eq_keys]
  constructor
  · intro hd
    obtain ⟨k, hkf, hkd⟩ := List.mem_map.mp hd
    obtain ⟨hk, hk1⟩ := List.mem_filter.mp hkf
    have hk1e : k.1 = node := by simpa using hk1
    have : k = (node, d) := by
      rw [Prod.ext_iff]
      exact ⟨hk1e, hkd⟩
    exact this ▸ hk
  · intro hk
    refine List.mem_map.mpr ⟨(node, d), List.mem_filter.mpr ⟨hk, by simp⟩, rfl⟩

theorem nodup_neighborsOf (s : NetworkState) (node : String)
    (h : (edgeKeys s).Nodup) : (neighborsOf s node).Nodup := by
  rw [neighborsOf_eq_keys]
  refine List.Nodup.map_on ?_ (List.Nodup.filter _ h)
  intro x hx y hy hxy
  have hx1 : x.1 = node := by simpa using (List.mem_filter.mp hx).2
  have hy1 : y.1 = node := by simpa using (List.mem_filter.mp hy).2
  rw [Prod.ext_iff]
  exact ⟨hx1.trans hy1.symm, hxy⟩

theorem hostConnections_processAll (evs : List Ev) (node : String) :
    hostConnections (processAll evs) node
      = (List.map (fun e => e.dst)
          (List.filter (fun e => decide (e.src = node)) evs)).toFinset.card := by
  have hnodup : (edgeKeys (processAll evs)).Nodup :=
    (nodup_keys_processAllFrom evs initialState (by simp [nodeKeys, initialState])
      (by simp [edgeKeys, initialState])).2
  have hn2 : (neighborsOf (processAll evs) node).Nodup :=
    nodup_neighborsOf _ _ hnodup
  unfold hostConnections
  rw [← List.toFinset_card_of_nodup hn2]
  congr 1
  apply Finset.ext
  intro d
  rw [List.mem_toFinset, List.mem_toFinset, mem_neighborsOf]
  show (node, d) ∈ edgeKeys (processAllFrom initialState evs) ↔ _
  rw [mem_edgeKeys_processAllFrom]
  simp only [edgeKeys, initialState, List.map_nil, List.not_mem_nil, false_or]
  constructor
  · rintro ⟨e, he, hp⟩
    have hsrc : node = e.src := congrArg Prod.fst hp
    have hdst : d = e.dst := congrArg Prod.snd hp
    refine List.mem_map.mpr ⟨e, List.mem_filter.mpr ⟨he, by simp [hsrc.symm]⟩, hdst.symm⟩
  · intro hd
    obtain ⟨e, hef, hde⟩ := List.mem_map.mp hd
    obtain ⟨he, hsrc⟩ := List.mem_filter.mp hef
    have hsrc2 : e.src = node := by simpa using hsrc
    refine ⟨e, he, ?_⟩
    rw [Prod.ext_iff]
    exact ⟨hsrc2.symm, hde.symm⟩

/-! ## Concrete events used in the closed examples -/

def evAB : Ev := ⟨"10.0.0.1", "10.0.0.2", 6, 60, 0⟩

theorem statsCount_replicate_evAB (n : Nat) :
    ∀ s : NetworkState,
      statsCount (processAllFrom s (List.replicate n evAB)).packet_stats
          "10.0.0.1" "10.0.0.2"
        = statsCount s.packet_stats "10.0.0.1" "10.0.0.2" + n := by
  induction n with
  | zero => intro s; rfl
  | succ m ih =>
    intro s
    show statsCount
        (processAllFrom (processEv s evAB) (List.replicate m evAB)).packet_stats _ _ = _
    rw [ih]
    have hstep : statsCount (processEv s evAB).packet_stats "10.0.0.1" "10.0.0.2"
        = statsCount s.packet_stats "10.0.0.1" "10.0.0.2" + 1 :=
      statsCount_processEv_self s evAB
    rw [hstep]
    omega

/-! ## The claims -/

/-- Claim C1: the spec asserts that the host-list query reports per-host
packets_sent and packets_received whose sums over all hosts both equal the
total number of processed events.  In the code the packets_received
comprehension subscripts its integer loop variable (`stats[node]` where
`stats` is the inner count), so after a single processed event the query
raises TypeError and reports nothing at all. -/
theorem c1_get_hosts_crashes_on_one_event :
    get_hosts (processAll [evAB]) 0
      = Except.error "TypeError: int is not subscriptable" := rfl

/-- Claim C2: a subscriber connecting at any point of any interleaving
receives an init snapshot plus subsequent deltas that reconstruct exactly
the final graph, the same state a subscriber connected from the start
reconstructs: no delta folded into the snapshot is re-delivered, no later
delta is missed.  In the source, registration and snapshot construction are
one synchronous block of websocket_endpoint, and state mutation plus the
registry copy are one synchronous block of the packet task, so each hub
operation is atomic with respect to the event loop. -/
theorem c2_snapshot_delta_consistency (ops : List HOp) (s : Subscriber)
    (hs : s ∈ (hrun hub0 ops).subs) :
    reconstruct s = ((hrun hub0 ops).gstate.nodes, (hrun hub0 ops).gstate.edges) := by
  refine hub_reconstruct ops hub0 ?_ s hs
  intro s0 hs0
  have hz : s0 = ⟨[], [], []⟩ := by simpa [hub0] using hs0
  subst hz
  rfl

def c2ops : List HOp :=
  [HOp.mutate evAB, HOp.subscribe, HOp.mutate ⟨"10.0.0.1", "10.0.0.2", 6, 60, 3⟩]

def c2sub : Subscriber :=
  ⟨[("10.0.0.1", ⟨"host", 0⟩), ("10.0.0.2", ⟨"host", 0⟩)],
   [(("10.0.0.1", "10.0.0.2"), ⟨1, 0, none⟩)],
   [⟨"10.0.0.1", "10.0.0.2", 6, 60, 3⟩]⟩

theorem c2_witness :
    reconstruct c2sub = ((hrun hub0 c2ops).gstate.nodes, (hrun hub0 c2ops).gstate.edges) :=
  c2_snapshot_delta_consistency c2ops c2sub (by decide)

def evT5 : Ev := ⟨"10.0.0.1", "10.0.0.2", 6, 60, 5⟩

def evT9 : Ev := ⟨"10.0.0.1", "10.0.0.2", 6, 60, 9⟩

/-- Claim C3 (counterexample): a second observation of the pair at time 9
leaves the edge with no last_seen value at all (the attribute is never
written), so last_seen is not updated to reflect the new observation. -/
theorem c3_counterexample :
    Option.map EdgeData.last_seen
        (alookup (processEv (processAll [evT5]) evT9).edges ("10.0.0.1", "10.0.0.2"))
      = some none ∧
    Option.map EdgeData.last_seen
        (alookup (processEv (processAll [evT5]) evT9).edges ("10.0.0.1", "10.0.0.2"))
      ≠ some (some 9) := by
  constructor
  · rfl
  · decide

/-- Claim C3 (amended): processing another event on an already-observed
pair strictly increments that flow weight by exactly one and leaves
first_seen and last_seen untouched; in particular no last_seen is stored,
so no update reflecting the new observation takes place. -/
theorem c3_weight_increment (s : NetworkState) (e : Ev) (d : EdgeData)
    (h : alookup s.edges (e.src, e.dst) = some d) :
    alookup (processEv s e).edges (e.src, e.dst)
      = some ⟨d.weight + 1, d.first_seen, d.last_seen⟩ := by
  rw [processEv_def]
  show alookup (updateEdge s.edges e.src e.dst e.time) (e.src, e.dst) = _
  unfold updateEdge
  rw [if_pos (by rw [h]; rfl), alookup_aupdate_self, h]
  rfl

theorem c3_witness :
    alookup (processEv (processAll [evT5]) evT9).edges (evT9.src, evT9.dst)
      = some ⟨2, 5, none⟩ :=
  c3_weight_increment (processAll [evT5]) evT9 ⟨1, 5, none⟩ rfl

/-- Claim C4: after processing any finite event sequence from a fresh state,
the hosts are exactly the distinct addresses occurring as source or
destination of some event, and there is exactly one flow record per distinct
observed ordered pair, created on first observation and never removed by
later events. -/
theorem c4_hosts_and_flows (evs : List Ev) :
    (∀ a, a ∈ nodeKeys (processAll evs)
        ↔ a ∈ List.flatMap evs (fun e => [e.src, e.dst])) ∧
    (nodeKeys (processAll evs)).Nodup ∧
    (∀ p, p ∈ edgeKeys (processAll evs)
        ↔ p ∈ List.map (fun e => (e.src, e.dst)) evs) ∧
    (edgeKeys (processAll evs)).Nodup ∧
    (∀ (more : List Ev) (p : String × String), p ∈ edgeKeys (processAll evs)
        → p ∈ edgeKeys (processAll (evs ++ more))) := by
  have hnodups := nodup_keys_processAllFrom evs initialState
    (by simp [nodeKeys, initialState]) (by simp [edgeKeys, initialState])
  have hmemn : ∀ a, a ∈ nodeKeys (processAll evs)
      ↔ a ∈ List.flatMap evs (fun e => [e.src, e.dst]) := by
    intro a
    show a ∈ nodeKeys (processAllFrom initialState evs) ↔ _
    rw [mem_nodeKeys_processAllFrom, List.mem_flatMap]
    simp [nodeKeys, initialState]
  have hmeme : ∀ (l : List Ev) (p : String × String), p ∈ edgeKeys (processAll l)
      ↔ p ∈ List.map (fun e => (e.src, e.dst)) l := by
    intro l p
    show p ∈ edgeKeys (processAllFrom initialState l) ↔ _
    rw [mem_edgeKeys_processAllFrom, List.mem_map]
    simp [edgeKeys, initialState, eq_comm]
  refine ⟨hmemn, hnodups.1, hmeme evs, hnodups.2, ?_⟩
  intro more p hp
  rw [hmeme (evs ++ more) p, List.map_append, List.mem_append]
  exact Or.inl ((hmeme evs p).mp hp)

theorem c4_witness :
    ("10.0.0.1", "10.0.0.2") ∈ edgeKeys (processAll [evAB]) :=
  ((c4_hosts_and_flows [evAB]).2.2.1 ("10.0.0.1", "10.0.0.2")).mpr (by decide)

/-- Claim C5: in every state reachable from a fresh state, the per-pair
counter packet_stats[src][dst] equals the weight of the flow (src, dst) when
that edge exists and is zero otherwise, and this equality is preserved by
every process_packet call from any state satisfying it. -/
theorem c5_stats_matches_weight :
    (∀ evs src dst, statsCount (processAll evs).packet_stats src dst
        = edgeWeight (processAll evs).edges src dst) ∧
    (∀ (s : NetworkState) (e : Ev),
        (∀ a b, statsCount s.packet_stats a b = edgeWeight s.edges a b) →
        ∀ a b, statsCount (processEv s e).packet_stats a b
          = edgeWeight (processEv s e).edges a b) := by
  constructor
  · intro evs src dst
    exact stats_eq_weight_processAllFrom evs initialState (fun _ _ => rfl) src dst
  · exact stats_eq_weight_processEv

theorem c5_witness :
    statsCount (processEv initialState evAB).packet_stats "10.0.0.1" "10.0.0.2"
      = edgeWeight (processEv initialState evAB).edges "10.0.0.1" "10.0.0.2" :=
  c5_stats_matches_weight.2 initialState evAB (fun _ _ => rfl) "10.0.0.1" "10.0.0.2"

/-- Claim C6 (counterexample): with 1024 events already processed (the
default capacity the spec posits for the ingestion pipeline), one further
arriving event still changes the Graph Store: the per-pair counter moves
from 1024 to 1025, so the event is neither discarded nor without effect,
and no drop counter exists anywhere in the state. -/
theorem c6_counterexample :
    statsCount (processAll (List.replicate 1024 evAB ++ [evAB])).packet_stats
        "10.0.0.1" "10.0.0.2"
      ≠ statsCount (processAll (List.replicate 1024 evAB)).packet_stats
        "10.0.0.1" "10.0.0.2" := by
  have h1 : statsCount (processAllFrom initialState (List.replicate 1024 evAB)).packet_stats
      "10.0.0.1" "10.0.0.2" = 1024 := by
    rw [statsCount_replicate_evAB 1024 initialState]
    show 0 + 1024 = 1024
    rfl
  have h2 : statsCount
      (processAllFrom initialState (List.replicate 1024 evAB ++ [evAB])).packet_stats
      "10.0.0.1" "10.0.0.2" = 1025 := by
    rw [processAllFrom_append]
    show statsCount
        (processEv (processAllFrom initialState (List.replicate 1024 evAB)) evAB).packet_stats
        "10.0.0.1" "10.0.0.2" = 1025
    have hstep : statsCount
        (processEv (processAllFrom initialState (List.replicate 1024 evAB)) evAB).packet_stats
        "10.0.0.1" "10.0.0.2"
        = statsCount (processAllFrom initialState (List.replicate 1024 evAB)).packet_stats
          "10.0.0.1" "10.0.0.2" + 1 :=
      statsCount_processEv_self (processAllFrom initialState (List.replicate 1024 evAB)) evAB
    rw [hstep, h1]
  show statsCount
      (processAllFrom initialState (List.replicate 1024 evAB ++ [evAB])).packet_stats
      "10.0.0.1" "10.0.0.2"
    ≠ statsCount (processAllFrom initialState (List.replicate 1024 evAB)).packet_stats
      "10.0.0.1" "10.0.0.2"
  rw [h1, h2]
  decide

/-- Claim C6 (amended): the ingestion path of the code has no capacity bound
and no drop counter: whatever number of events has already been processed,
one more arriving IP event is applied to the Graph Store (its per-pair
counter increments by exactly one) and ingestion continues; no event is ever
discarded. -/
theorem c6_no_drop (evs : List Ev) (e : Ev) :
    statsCount (processAll (evs ++ [e])).packet_stats e.src e.dst
      = statsCount (processAll evs).packet_stats e.src e.dst + 1 := by
  show statsCount (processAllFrom initialState (evs ++ [e])).packet_stats e.src e.dst = _
  rw [processAllFrom_append]
  exact statsCount_processEv_self (processAllFrom initialState evs) e

/-- Claim C7: broadcasting a delta to any registry removes exactly the
connections whose send fails and delivers the delta to every connection
whose send does not fail; a failing subscriber never prevents delivery to
any other subscriber. -/
theorem c7_broadcast_isolation (reg : List Conn) :
    (broadcast_update reg).1 = List.filter (fun c => !c.fails) reg ∧
    (broadcast_update reg).2 = List.filter (fun c => !c.fails) reg :=
  broadcast_update_spec reg

/-- Claim C8 (counterexample): after the single event 10.0.0.1 to 10.0.0.2,
the host 10.0.0.2 is in the graph with graph degree 1 (one incoming flow),
but the connections value computed by the host-list code
(len(list(graph.neighbors(node))), successors only) is 0. -/
theorem c8_counterexample :
    "10.0.0.2" ∈ nodeKeys (processAll [evAB]) ∧
    hostConnections (processAll [evAB]) "10.0.0.2"
      ≠ graphDegreeClaimed (processAll [evAB]) "10.0.0.2" := by
  constructor
  · decide
  · decide

/-- Claim C8 (amended): the connections field computed by the host-list code
equals the host out-degree: the number of distinct destination addresses the
host has sent packets to.  Incoming flows are not counted, because
DiGraph.neighbors yields successors only. -/
theorem c8_connections_is_outdegree (evs : List Ev) (node : String) :
    hostConnections (processAll evs) node
      = (List.map (fun e => e.dst)
          (List.filter (fun e => decide (e.src = node)) evs)).toFinset.card :=
  hostConnections_processAll evs node

/-- Claim C9: a packet with no IP layer makes process_packet return None,
raise nothing, and leave the graph nodes, edges and packet_stats counters
exactly unchanged. -/
theorem c9_non_ip_ignored (s : NetworkState) (p : Packet) (now : Nat)
    (h : p.ip = none) : process_packet s p now = (s, none) := by
  unfold process_packet
  rw [h]

theorem c9_witness : process_packet initialState ⟨none, 42⟩ 7 = (initialState, none) :=
  c9_non_ip_ignored initialState ⟨none, 42⟩ 7 rfl

/-- Claim C10: two runs over event sequences that agree on everything except
the observation timestamps produce identical timestamp-erased results from a
fresh state: the same host set, the same flows with the same weights, and
identical packet_stats counters. -/
theorem c10_deterministic_modulo_time (evs1 evs2 : List Ev)
    (h : List.map Ev.core evs1 = List.map Ev.core evs2) :
    nodeKeys (processAll evs1) = nodeKeys (processAll evs2) ∧
    edgeWeights (processAll evs1) = edgeWeights (processAll evs2) ∧
    (processAll evs1).packet_stats = (processAll evs2).packet_stats :=
  erased_run evs1 evs2 initialState initialState h rfl rfl rfl

theorem c10_witness :
    nodeKeys (processAll [⟨"10.0.0.1", "10.0.0.2", 6, 60, 1⟩])
      = nodeKeys (processAll [⟨"10.0.0.1", "10.0.0.2", 6, 60, 99⟩]) ∧
    edgeWeights (processAll [⟨"10.0.0.1", "10.0.0.2", 6, 60, 1⟩])
      = edgeWeights (processAll [⟨"10.0.0.1", "10.0.0.2", 6, 60, 99⟩]) ∧
    (processAll [⟨"10.0.0.1", "10.0.0.2", 6, 60, 1⟩]).packet_stats
      = (processAll [⟨"10.0.0.1", "10.0.0.2", 6, 60, 99⟩]).packet_stats :=
  c10_deterministic_modulo_time
    [⟨"10.0.0.1", "10.0.0.2", 6, 60, 1⟩] [⟨"10.0.0.1", "10.0.0.2", 6, 60, 99⟩] rfl
